import Mathlib

/-! Shallow embedding of the 2048 special-rule trainer: the board engine
(`board.h`: slides, placement, symmetry transforms, danger queries) and the
strategic slider's pattern evaluator and TD(λ) learning engine (`agent.h`).
Machine floats are modelled over ℚ (every constant appearing in the claims is
exactly representable); `board::cell` (`uint32_t`) ranks are modelled as `Nat`
(rank arithmetic never overflows 32 bits: ranks stay below 16 in every indexed
use, and merge increments a rank by one). -/

namespace Spec2048

/-- The 4×4 grid of tile ranks (`board::grid`; a cell holds rank `k`,
displayed value `2^k`, `0` = empty).  The `attr` word of `board` is never
read or written by any operation the claims mention, so the grid alone
captures the board state. -/
abbrev Board := Fin 4 → Fin 4 → Nat

/-- Index reversal `0↔3, 1↔2`: the effect of the two `std::swap` calls in
`board::reflect_horizontal` / `board::reflect_vertical` on a 4-array. -/
def rev4 : Fin 4 → Fin 4
  | 0 => 3
  | 1 => 2
  | 2 => 1
  | 3 => 0

/-- `board::reflect_horizontal`: swap columns 0↔3 and 1↔2 in every row. -/
def reflect_horizontal (b : Board) : Board := fun r c => b r (rev4 c)

/-- `board::reflect_vertical`: swap rows 0↔3 and 1↔2 in every column. -/
def reflect_vertical (b : Board) : Board := fun r c => b (rev4 r) c

/-- `board::transpose`: swap `tile[r][c]` with `tile[c][r]`. -/
def transpose (b : Board) : Board := fun r c => b c r

/-- `board::rotate_clockwise`: `transpose(); reflect_horizontal();`. -/
def rotate_clockwise (b : Board) : Board := reflect_horizontal (transpose b)

/-- `board::rotate_counterclockwise`: `transpose(); reflect_vertical();`. -/
def rotate_counterclockwise (b : Board) : Board := reflect_vertical (transpose b)

/-- `board::reverse`: `reflect_horizontal(); reflect_vertical();`. -/
def reverse (b : Board) : Board := reflect_vertical (reflect_horizontal b)

/-- The cell at 1-d position `pos` (`board::operator()(pos)` reads
`tile[pos / 4][pos % 4]`); only evaluated under a `pos < 16` bound, exactly
as the short-circuit guards in the source do. -/
def cellAt (b : Board) (pos : Nat) (h : pos < 16) : Nat :=
  b ⟨pos / 4, by omega⟩ ⟨pos % 4, by omega⟩

/-- The 16 cells in 1-d scan order `(0) (1) ... (15)`, as the loops
`for (int i = 0; i < 16; i++)` of `board.h` visit them. -/
def cellsList (b : Board) : List Nat :=
  [b 0 0, b 0 1, b 0 2, b 0 3,
   b 1 0, b 1 1, b 1 2, b 1 3,
   b 2 0, b 2 1, b 2 2, b 2 3,
   b 3 0, b 3 1, b 3 2, b 3 3]

/-- `board::count_tile_value(value)`: number of cells equal to `value`. -/
def count_tile_value (b : Board) (value : Nat) : Nat :=
  (cellsList b).countP (fun t => t = value)

/-- `board::max_tile_value()`: running maximum over all 16 cells, seeded 0. -/
def max_tile_value (b : Board) : Nat :=
  (cellsList b).foldl max 0

/-- `board::calculate_danger_level()`: the coarse risk bucket computed from
the counts of rank-13 (8192) and rank-12 (4096) tiles. -/
def calculate_danger_level (b : Board) : ℚ :=
  let count_8192 := count_tile_value b 13
  let count_4096 := count_tile_value b 12
  if 1 ≤ count_8192 ∧ 2 ≤ count_4096 then 1
  else if 1 ≤ count_8192 ∧ 1 ≤ count_4096 then 7/10
  else if 3 ≤ count_4096 then 2/5
  else 0

/-- `board::place(pos, tile)`: reject an out-of-range or occupied position
and a rank outside {1,2}; otherwise write the cell and return reward 0.
The returned pair is (board after the call, returned `reward`). -/
def place (b : Board) (pos tile : Nat) : Board × Int :=
  if h : 16 ≤ pos then (b, -1)
  else if cellAt b pos (by omega) ≠ 0 then (b, -1)
  else if tile ≠ 1 ∧ tile ≠ 2 then (b, -1)
  else ((fun r c =>
    if r = (⟨pos / 4, by omega⟩ : Fin 4) ∧ c = (⟨pos % 4, by omega⟩ : Fin 4)
    then tile else b r c), 0)

/-- Row `r` of the board as the list `[row[0], row[1], row[2], row[3]]`. -/
def rowList (b : Board) (r : Fin 4) : List Nat :=
  [b r 0, b r 1, b r 2, b r 3]

/-- The board as its list of rows (used only to compare boards concretely). -/
def boardList (b : Board) : List (List Nat) :=
  [rowList b 0, rowList b 1, rowList b 2, rowList b 3]

/-- Loop state of the inner `for (int c = 0; ...)` loop of `board::slide_left`:
`out` holds the cells already written at positions `0..top-1`, `hold` the
pending tile (0 = none, the code tests it with `if (hold)`), `score` the merge
score accumulated so far. -/
structure SlideAcc where
  out : List Nat
  hold : Nat
  score : Nat

/-- One iteration of the `slide_left` inner loop on the tile read at column
`c`: skip zeros; merge with an equal held tile (write `tile+1`, add
`1 << (tile+1)`, clear the hold); flush a different held tile; or start
holding. -/
def slideStep (st : SlideAcc) (tile : Nat) : SlideAcc :=
  if tile = 0 then st
  else if st.hold ≠ 0 then
    if tile = st.hold then ⟨st.out ++ [tile + 1], 0, st.score + 2 ^ (tile + 1)⟩
    else ⟨st.out ++ [st.hold], tile, st.score⟩
  else ⟨st.out, tile, st.score⟩

/-- One row of `board::slide_left`: run the inner loop over the four cells,
flush a trailing held tile (`if (hold) tile[r][top] = hold;`), and pad with
the zeros the loop left behind (`row[c] = 0` cleared every visited cell and
only `top` cells were rewritten).  Returns the rewritten row and the score
the row contributed. -/
def slideRow (l : List Nat) : List Nat × Nat :=
  let st := l.foldl slideStep ⟨[], 0, 0⟩
  let flushed := if st.hold ≠ 0 then st.out ++ [st.hold] else st.out
  (flushed ++ List.replicate (4 - flushed.length) 0, st.score)

/-- `board::slide_left`: rewrite every row, sum the row scores, and return
the score when the board changed, `-1` otherwise (the grid after the call is
the rewritten grid either way; when `-1` is returned it equals `prev`). -/
def slide_left (b : Board) : Board × Int :=
  let b' : Board := fun r c => ((slideRow (rowList b r)).1).getD c 0
  let score : Nat := ∑ r : Fin 4, (slideRow (rowList b r)).2
  (b', if b' = b then -1 else (score : Int))

/-- `board::slide_right`: `reflect_horizontal(); slide_left(); reflect_horizontal();`. -/
def slide_right (b : Board) : Board × Int :=
  let p := slide_left (reflect_horizontal b)
  (reflect_horizontal p.1, p.2)

/-- `board::slide_up`: `rotate_clockwise(); slide_right(); rotate_counterclockwise();`. -/
def slide_up (b : Board) : Board × Int :=
  let p := slide_right (rotate_clockwise b)
  (rotate_counterclockwise p.1, p.2)

/-- `board::slide_down`: `rotate_clockwise(); slide_left(); rotate_counterclockwise();`. -/
def slide_down (b : Board) : Board × Int :=
  let p := slide_left (rotate_clockwise b)
  (rotate_counterclockwise p.1, p.2)

/-- `board::slide(opcode)`: dispatch on `opcode & 0b11` (= `opcode % 4`):
0 = up, 1 = right, 2 = down, 3 = left. -/
def slide (b : Board) (opcode : Nat) : Board × Int :=
  match opcode % 4 with
  | 0 => slide_up b
  | 1 => slide_right b
  | 2 => slide_down b
  | 3 => slide_left b
  | _ => (b, -1)

/-- Modelled from the spec (§4.1, the claim's own wording): merge a row's
nonzero tiles left to right holding a pending tile — an equal pair merges to
a tile of the next rank and adds `2^(new rank)` to the score, an unequal pair
flushes the held tile, a trailing held tile flushes at the end. -/
def mergeRow : List Nat → List Nat × Nat
  | [] => ([], 0)
  | [t] => ([t], 0)
  | t :: u :: rest =>
    if t = u then
      let p := mergeRow rest
      ((t + 1) :: p.1, p.2 + 2 ^ (t + 1))
    else
      let p := mergeRow (u :: rest)
      (t :: p.1, p.2)

/-- Modelled from the spec: a full row treatment — drop the empty cells,
merge, pad back to four cells with zeros. -/
def slide_row_spec (l : List Nat) : List Nat × Nat :=
  let p := mergeRow (l.filter (fun t => t ≠ 0))
  (p.1 ++ List.replicate (4 - p.1.length) 0, p.2)

/-- The board a slide in direction `opcode` row-processes leftwards, after
the reflections/rotations the code applies first. -/
def orient (b : Board) (opcode : Nat) : Board :=
  match opcode % 4 with
  | 0 => reflect_horizontal (rotate_clockwise b)
  | 1 => reflect_horizontal b
  | 2 => rotate_clockwise b
  | _ => b

/-- Total merge score of a slide: the sum of the four row scores of the
oriented board, per the spec's left-compaction description. -/
def totalMergeScore (b : Board) (opcode : Nat) : Int :=
  ((∑ r : Fin 4, (slide_row_spec (rowList (orient b opcode) r)).2 : Nat) : Int)

/-- The pending tile as a list: empty when no tile is held (`hold = 0`). -/
def holdList (hold : Nat) : List Nat := if hold = 0 then [] else [hold]

/-- Indicator of a nonzero cell. -/
def cnt (n : Nat) : Nat := if n = 0 then 0 else 1

/-- Number of nonzero cells in a row. -/
def rowCount (l : List Nat) : Nat := (l.map cnt).sum

/-- Number of nonzero cells on the board. -/
def cellCount (b : Board) : Nat := ∑ r : Fin 4, rowCount (rowList b r)

/-- A weight table of the agent's `net` (one `weight` of `weight.h`): its
length and its entries, over ℚ in place of `float`. -/
structure Wtable where
  size : Nat
  val : Nat → ℚ

/-- `table[j] := v`, leaving the length unchanged. -/
def updVal (w : Wtable) (j : Nat) (v : ℚ) : Wtable :=
  ⟨w.size, fun k => if k = j then v else w.val k⟩

/-- Read table `i` of a table vector (out-of-range reads never happen in the
guarded source paths; they default to an empty table). -/
def getT (l : List Wtable) (i : Nat) : Wtable := l.getD i ⟨0, fun _ => 0⟩

/-- Replace table `i` of a table vector by `f` applied to it. -/
def modifyT : List Wtable → Nat → (Wtable → Wtable) → List Wtable
  | [], _, _ => []
  | w :: l, 0, f => f w :: l
  | w :: l, i + 1, f => w :: modifyT l i f

/-- The fixed 2×2-corner pattern set of `strategic_slider` (`patterns` in
`evaluate_board`, `update_weights_with_td_error` and
`extract_all_features`). -/
def patterns : List (List Nat) :=
  [[0, 1, 4, 5], [2, 3, 6, 7], [8, 9, 12, 13], [10, 11, 14, 15]]

/-- `strategic_slider::mirror_horizontal` (the agent's own copy of the
horizontal mirror, written over 1-d indices `r*4 + c`). -/
def mirror_horizontal (b : Board) : Board := fun r c => b r (rev4 c)

/-- `strategic_slider::mirror_vertical`. -/
def mirror_vertical (b : Board) : Board := fun r c => b (rev4 r) c

/-- `strategic_slider::transpose_board`. -/
def transpose_board (b : Board) : Board := fun r c => b c r

/-- The feature-index loop shared by `evaluate_pattern` and
`update_pattern_weights`: accumulate base-16 digits `min(rank, 15)` over the
pattern's positions, short-circuiting as soon as the running index reaches
the table length (the trailing `if (index >= weights.size()) break;`).
Pattern entries are C++ `int`s but every pattern literal is nonnegative, so
`pos >= 0` holds by the `Nat` type. -/
def featIndexAux (wsize : Nat) (b : Board) : List Nat → Nat → Nat → Nat
  | [], index, _ => index
  | pos :: rest, index, mult =>
    if h : pos < 16 then
      let index' := index + min (cellAt b pos h) 15 * mult
      if wsize ≤ index' then index' else featIndexAux wsize b rest index' (mult * 16)
    else
      if wsize ≤ index then index else featIndexAux wsize b rest index mult

/-- The feature index of `pattern` on board `b` against a table of length
`wsize`, started from `index = 0`, `multiplier = 1`. -/
def featIndex (wsize : Nat) (b : Board) (pattern : List Nat) : Nat :=
  featIndexAux wsize b pattern 0 1

/-- `strategic_slider::evaluate_pattern`: look the feature index up, 0 when
it falls outside the table. -/
def evaluate_pattern (b : Board) (pattern : List Nat) (w : Wtable) : ℚ :=
  let index := featIndex w.size b pattern
  if index < w.size then w.val index else 0

/-- The eight boards `strategic_slider::evaluate_board` +
`evaluate_isomorphic_patterns` look up, in evaluation order: the original,
then the seven variants produced by the mutation chain of
`evaluate_isomorphic_patterns` (`mirrored_h`, `mirrored_v`, `transposed`,
then `transposed` further mutated by mirror-h, mirror-v, transpose,
mirror-h). -/
def codeVariants (b : Board) : List Board :=
  let mirrored_h := mirror_horizontal b
  let mirrored_v := mirror_vertical b
  let transposed1 := transpose_board b
  let transposed2 := mirror_horizontal transposed1
  let transposed3 := mirror_vertical transposed2
  let transposed4 := transpose_board transposed3
  let transposed5 := mirror_horizontal transposed4
  [b, mirrored_h, mirrored_v, transposed1, transposed2, transposed3,
   transposed4, transposed5]

/-- `strategic_slider::evaluate_isomorphic_patterns`: the summed lookups of
the seven mutated variants (everything of `codeVariants` past the original
board). -/
def evaluate_isomorphic_patterns (b : Board) (pattern : List Nat)
    (w : Wtable) : ℚ :=
  (((codeVariants b).drop 1).map (fun v => evaluate_pattern v pattern w)).sum

/-- `strategic_slider::evaluate_board`: for each pattern/table pair (the
loop runs to `min(patterns.size(), net.size())` and skips empty tables), add
the original lookup and the isomorphic-variant lookups. -/
def evaluate_board (net : List Wtable) (b : Board) : ℚ :=
  ((patterns.zip net).map (fun pw =>
    if pw.2.size = 0 then 0
    else evaluate_pattern b pw.1 pw.2 +
      evaluate_isomorphic_patterns b pw.1 pw.2)).sum

/-- Modelled from the spec: the dihedral group of the square as the claim
words it — the identity, the three further clockwise rotations, and each of
those four composed with the (horizontal) mirror. -/
def dihedralVariants (b : Board) : List Board :=
  [b,
   rotate_clockwise b,
   rotate_clockwise (rotate_clockwise b),
   rotate_clockwise (rotate_clockwise (rotate_clockwise b)),
   reflect_horizontal b,
   reflect_horizontal (rotate_clockwise b),
   reflect_horizontal (rotate_clockwise (rotate_clockwise b)),
   reflect_horizontal (rotate_clockwise (rotate_clockwise (rotate_clockwise b)))]

/-- The anti-diagonal reflection (transpose along the anti-diagonal): the
dihedral element the third mutated variant of the code turns out to be. -/
def anti_transpose (b : Board) : Board := fun r c => b (rev4 c) (rev4 r)

/-- A board with 16 pairwise distinct cells, used as a concrete witness
input (its eight dihedral images are pairwise distinct). -/
def exDistinct : Board := fun r c => (r : Nat) * 4 + (c : Nat)

/-- The learning state mutated by the TD updates: the weight tables `net`
and the parallel `eligibility_traces`. -/
structure LState where
  net : List Wtable
  traces : List Wtable

/-- `strategic_slider::update_pattern_weights`: compute the feature index
against `net[net_index]`; when it is inside both the table and its trace
row, set the trace entry to 1.0 and add
`alpha * td_error * traces[net_index][index]` (read back after the write,
hence the factor 1) to the weight entry. -/
def update_pattern_weights (alpha : ℚ) (st : LState) (state : Board)
    (pattern : List Nat) (net_index : Nat) (td_error : ℚ) : LState :=
  let index := featIndex (getT st.net net_index).size state pattern
  if index < (getT st.net net_index).size ∧
      index < (getT st.traces net_index).size then
    let traces' := modifyT st.traces net_index (fun w => updVal w index 1)
    let traceVal := (getT traces' net_index).val index
    let net' := modifyT st.net net_index (fun w =>
      updVal w index ((getT st.net net_index).val index +
        alpha * td_error * traceVal))
    ⟨net', traces'⟩
  else st

/-- `strategic_slider::update_isomorphic_pattern_weights`: repeat the
pattern update on the horizontal mirror and on the transpose of the state,
each with the error scaled by `0.125f` (and on no further variant). -/
def update_isomorphic_pattern_weights (alpha : ℚ) (st : LState)
    (state : Board) (pattern : List Nat) (net_index : Nat)
    (td_error : ℚ) : LState :=
  let mirrored := mirror_horizontal state
  let st1 := update_pattern_weights alpha st mirrored pattern net_index
    (td_error * (1/8))
  let transposed := transpose_board state
  update_pattern_weights alpha st1 transposed pattern net_index
    (td_error * (1/8))

/-- `strategic_slider::update_weights_with_td_error`: skip when either
vector is empty, else for each pattern index below
`min(patterns.size(), net.size())` with a nonempty table, do the original
update then the isomorphic updates. -/
def update_weights_with_td_error (alpha : ℚ) (st : LState) (state : Board)
    (td_error : ℚ) : LState :=
  if st.net.isEmpty ∨ st.traces.isEmpty then st
  else
    (List.range (min patterns.length st.net.length)).foldl
      (fun acc i =>
        if (getT acc.net i).size = 0 then acc
        else
          let acc1 := update_pattern_weights alpha acc state
            (patterns.getD i []) i td_error
          update_isomorphic_pattern_weights alpha acc1 state
            (patterns.getD i []) i td_error)
      st

/-- Modelled from the spec: one pattern's weight update as the claim words
it — the single-table update applied to the state with the full error, then
to the horizontal mirror and to the transpose, each with the error scaled by
0.125, and to no other variant. -/
def specVariantUpdates (alpha : ℚ) (st : LState) (state : Board)
    (pattern : List Nat) (net_index : Nat) (td_error : ℚ) : LState :=
  ([(state, td_error),
    (mirror_horizontal state, td_error * (1/8)),
    (transpose_board state, td_error * (1/8))]).foldl
    (fun acc se =>
      update_pattern_weights alpha acc se.1 pattern net_index se.2) st

/-- One recorded step of `strategic_slider`'s episode trajectory
(`GameStep`); the stored `action_taken` plays no part in any weight update
and is omitted. -/
structure GameStep where
  state : Board
  reward : Int
  next_state : Board
  evaluation : ℚ
deriving Inhabited

/-- `strategic_slider::calculate_final_reward`: −50000 on the literal tag
"win"; on the literal tag "lose" with a nonempty episode, 10000 / 5000 /
1000 tiered by the final state's rank-13 count and maximum rank; 0 in every
other case. -/
def calculate_final_reward (flag : String) (episode : List GameStep) : ℚ :=
  if flag = "win" then -50000
  else if flag = "lose" then
    match episode.getLast? with
    | none => 0
    | some last =>
      if count_tile_value last.next_state 13 = 1 then 10000
      else if count_tile_value last.next_state 13 = 0 ∧
          12 ≤ max_tile_value last.next_state then 5000
      else 1000
  else 0

/-- The backward loop of `strategic_slider::perform_final_td_update`, walking
the reversed trajectory: at distance `k` from the end, emit the update call
`update_weights_with_td_error(step.state, td_error * λ^k)`, then (for the
next, earlier step) replace the carried error by
`step.reward + λ * td_error`. -/
def finalUpdateAux (lam : ℚ) : List GameStep → ℚ → Nat → List (Board × ℚ)
  | [], _, _ => []
  | step :: earlier, td_error, k =>
    (step.state, td_error * lam ^ k) ::
      finalUpdateAux lam earlier ((step.reward : ℚ) + lam * td_error) (k + 1)

/-- `strategic_slider::perform_final_td_update` as the ordered list of weight
update calls `(state, applied error)` it makes: nothing on an empty episode;
otherwise the backward walk seeded with
`final_reward − last_step.evaluation`. -/
def perform_final_td_update (lam : ℚ) (flag : String)
    (episode : List GameStep) : List (Board × ℚ) :=
  match episode.getLast? with
  | none => []
  | some last =>
    finalUpdateAux lam episode.reverse
      (calculate_final_reward flag episode - last.evaluation) 0

/-- Modelled from the spec: the carried error term at distance `d` from the
end — `next_error = step.reward + λ * next_error`, seeded with the terminal
error `e0`, the step at distance `d` read off the reversed trajectory. -/
def carriedError (e0 lam : ℚ) (revSteps : List GameStep) : Nat → ℚ
  | 0 => e0
  | d + 1 => ((revSteps.getD d default).reward : ℚ) +
      lam * carriedError e0 lam revSteps d

/-- An all-empty board. -/
def bZero : Board := fun _ _ => 0

/-- A board whose only nonzero cell is one rank-13 tile. -/
def exOne13 : Board := fun r c => if r = 0 ∧ c = 0 then 13 else 0

/-- A board whose nonzero cells are exactly two rank-13 tiles. -/
def exTwo13 : Board := fun r c => if r = 0 ∧ (c = 0 ∨ c = 1) then 13 else 0

/-- A board holding a single rank-12 tile. -/
def exOne12 : Board := fun r c => if r = 0 ∧ c = 0 then 12 else 0

/-- A two-step episode with zero step rewards and zero value estimates. -/
def exEpisode2 : List GameStep :=
  [⟨bZero, 0, bZero, 0⟩, ⟨bZero, 0, bZero, 0⟩]

/-- A one-step episode ending in the one-rank-13 board. -/
def exEpisode13 : List GameStep := [⟨bZero, 0, exOne13, 0⟩]

/-- A one-step episode ending in the one-rank-12 board. -/
def exEpisode12 : List GameStep := [⟨bZero, 0, exOne12, 0⟩]

/-- A one-step episode ending in the empty board. -/
def exEpisode0 : List GameStep := [⟨bZero, 0, bZero, 0⟩]

/-- A learning state with the four zero-filled 65536-entry tables and their
parallel traces (the `init=65536,65536,65536,65536` configuration). -/
def exLState : LState :=
  ⟨List.replicate 4 ⟨65536, fun _ => 0⟩, List.replicate 4 ⟨65536, fun _ => 0⟩⟩

lemma rev4_rev4 (i : Fin 4) : rev4 (rev4 i) = i := by
  fin_cases i <;> rfl

lemma reflect_horizontal_involutive (b : Board) :
    reflect_horizontal (reflect_horizontal b) = b := by
  funext r c
  simp [reflect_horizontal, rev4_rev4]

lemma reflect_vertical_involutive (b : Board) :
    reflect_vertical (reflect_vertical b) = b := by
  funext r c
  simp [reflect_vertical, rev4_rev4]

lemma rotate_counterclockwise_rotate_clockwise (b : Board) :
    rotate_counterclockwise (rotate_clockwise b) = b := by
  funext r c
  simp [rotate_counterclockwise, rotate_clockwise, reflect_horizontal,
    reflect_vertical, transpose, rev4_rev4]

/-- The `slide_left` inner loop agrees with the spec's hold-and-merge pass:
folding from loop state `(out, hold, score)` and flushing at the end appends
the merge of the held tile followed by the remaining nonzero tiles. -/
lemma slideStep_foldl_eq (l : List Nat) : ∀ out hold score,
    (fun st : SlideAcc =>
        ((if st.hold ≠ 0 then st.out ++ [st.hold] else st.out), st.score))
      (l.foldl slideStep ⟨out, hold, score⟩) =
    (out ++ (mergeRow (holdList hold ++ l.filter (fun t => t ≠ 0))).1,
     score + (mergeRow (holdList hold ++ l.filter (fun t => t ≠ 0))).2) := by
  induction l with
  | nil =>
    intro out hold score
    by_cases h : hold = 0 <;> simp [h, holdList, mergeRow]
  | cons t l ih =>
    intro out hold score
    rw [List.foldl_cons]
    by_cases ht : t = 0
    · subst ht
      rw [show slideStep ⟨out, hold, score⟩ 0 = ⟨out, hold, score⟩ from by
        simp [slideStep]]
      rw [ih out hold score]
      simp [List.filter_cons]
    · by_cases hh : hold = 0
      · subst hh
        rw [show slideStep ⟨out, 0, score⟩ t = ⟨out, t, score⟩ from by
          simp [slideStep, ht]]
        rw [ih out t score]
        simp [holdList, ht, List.filter_cons]
      · by_cases hm : t = hold
        · subst hm
          rw [show slideStep ⟨out, t, score⟩ t =
              ⟨out ++ [t + 1], 0, score + 2 ^ (t + 1)⟩ from by
            simp [slideStep, ht]]
          rw [ih (out ++ [t + 1]) 0 (score + 2 ^ (t + 1))]
          simp only [holdList, if_pos rfl, if_neg ht, List.nil_append,
            List.filter_cons, ht, decide_not, Prod.mk.injEq]
          constructor
          · simp [mergeRow, List.append_assoc]
          · simp [mergeRow]
            omega
        · rw [show slideStep ⟨out, hold, score⟩ t =
              ⟨out ++ [hold], t, score⟩ from by
            simp [slideStep, ht, hh, hm]]
          rw [ih (out ++ [hold]) t score]
          have hmm : ¬hold = t := fun h => hm h.symm
          simp only [holdList, if_neg ht, if_neg hh, List.filter_cons, ht,
            Prod.mk.injEq]
          constructor
          · simp [mergeRow, hmm, List.append_assoc, ht]
          · simp [mergeRow, hmm, ht]

/-- The code's row pass equals the spec's row treatment on every row. -/
lemma slideRow_eq_spec (l : List Nat) : slideRow l = slide_row_spec l := by
  have h := slideStep_foldl_eq l [] 0 0
  simp only [holdList, if_true, eq_self_iff_true, List.nil_append,
    Nat.zero_add] at h
  have h1 := congrArg Prod.fst h
  have h2 := congrArg Prod.snd h
  simp only at h1 h2
  simp only [slideRow, slide_row_spec, h1, h2]

lemma rotate_clockwise_rotate_counterclockwise (b : Board) :
    rotate_clockwise (rotate_counterclockwise b) = b := by
  funext r c
  simp [rotate_counterclockwise, rotate_clockwise, reflect_horizontal,
    reflect_vertical, transpose, rev4_rev4]

lemma reflect_horizontal_eq_iff (x y : Board) :
    reflect_horizontal x = y ↔ x = reflect_horizontal y := by
  constructor
  · intro h
    rw [← h, reflect_horizontal_involutive]
  · intro h
    rw [h, reflect_horizontal_involutive]

lemma rotate_counterclockwise_eq_iff (x y : Board) :
    rotate_counterclockwise x = y ↔ x = rotate_clockwise y := by
  constructor
  · intro h
    rw [← h, rotate_clockwise_rotate_counterclockwise]
  · intro h
    rw [h, rotate_counterclockwise_rotate_clockwise]

/-- The slide-left result, written through the spec's row treatment. -/
lemma slide_left_eq (b : Board) :
    slide_left b =
      ((fun r c => ((slide_row_spec (rowList b r)).1).getD c 0 : Board),
        if (fun r c => ((slide_row_spec (rowList b r)).1).getD c 0 : Board) = b
        then (-1 : Int)
        else ((∑ r : Fin 4, (slide_row_spec (rowList b r)).2 : Nat) : Int)) := by
  simp only [slide_left, slideRow_eq_spec]

lemma mergeRow_length_le (l : List Nat) : (mergeRow l).1.length ≤ l.length := by
  induction l using mergeRow.induct with
  | case1 => simp [mergeRow]
  | case2 t => simp [mergeRow]
  | case3 u rest ih =>
    simp only [mergeRow, if_pos rfl]
    simpa using Nat.le_succ_of_le ih
  | case4 t u rest h ih =>
    simp only [mergeRow, if_neg h]
    simpa using ih

lemma list_getD_four (l : List Nat) (h : l.length = 4) :
    [l.getD 0 0, l.getD 1 0, l.getD 2 0, l.getD 3 0] = l := by
  rcases l with _ | ⟨a, _ | ⟨b, _ | ⟨c, _ | ⟨d, _ | ⟨e, l⟩⟩⟩⟩⟩ <;>
    simp_all [List.getD]

lemma rowList_length (b : Board) (r : Fin 4) : (rowList b r).length = 4 := rfl

lemma slide_row_spec_length (l : List Nat) (h : l.length = 4) :
    ((slide_row_spec l).1).length = 4 := by
  have h1 : (mergeRow (l.filter (fun t => t ≠ 0))).1.length ≤ l.length :=
    le_trans (mergeRow_length_le _) (List.length_filter_le _ _)
  simp only [slide_row_spec, List.length_append, List.length_replicate]
  omega

/-- Rows of the slide-left result are the spec-merged rows. -/
lemma rowList_slide_left (b : Board) (r : Fin 4) :
    rowList (slide_left b).1 r = (slide_row_spec (rowList b r)).1 := by
  have hb : (slide_left b).1 =
      (fun r c => ((slide_row_spec (rowList b r)).1).getD c 0 : Board) :=
    congrArg Prod.fst (slide_left_eq b)
  rw [hb]
  exact list_getD_four _ (slide_row_spec_length _ (rowList_length b r))

/-- C3: slide-left processes every row independently by the spec's
left-compaction with adjacent-equal-rank merging, its return value is the
summed row merge scores exactly when the board changed, and the row
`[1,1,0,0]` merges to `[2,0,0,0]` with reward `2^2 = 4`. -/
theorem claim_C3 (b : Board) :
    (∀ r : Fin 4, rowList (slide_left b).1 r = (slide_row_spec (rowList b r)).1) ∧
    (slide_left b).2 =
      (if (slide_left b).1 = b then (-1 : Int)
       else ((∑ r : Fin 4, (slide_row_spec (rowList b r)).2 : Nat) : Int)) ∧
    slide_row_spec [1, 1, 0, 0] = ([2, 0, 0, 0], 4) := by
  refine ⟨fun r => rowList_slide_left b r, ?_, rfl⟩
  rw [slide_left_eq b]

/-- C8: four clockwise quarter turns are the identity, the horizontal mirror
is an involution, and a clockwise turn is transpose followed by the
horizontal mirror. -/
theorem claim_C8 (b : Board) :
    rotate_clockwise (rotate_clockwise (rotate_clockwise (rotate_clockwise b))) = b ∧
    reflect_horizontal (reflect_horizontal b) = b ∧
    rotate_clockwise b = reflect_horizontal (transpose b) := by
  refine ⟨?_, reflect_horizontal_involutive b, rfl⟩
  funext r c
  simp [rotate_clockwise, reflect_horizontal, transpose, rev4_rev4]

/-- C10: an out-of-range position makes `place` return the illegal sentinel
−1 with the board untouched. -/
theorem claim_C10 (b : Board) (pos tile : Nat) (h : 16 ≤ pos) :
    place b pos tile = (b, -1) := by
  simp [place, h]

/-- Witness for C10 at `pos = 16`. -/
theorem claim_C10_witness :
    place bZero 16 1 = (bZero, -1) :=
  claim_C10 bZero 16 1 (by omega)

/-- The slide-left return value, conditioned on its own result board. -/
lemma slide_left_snd (b : Board) :
    (slide_left b).2 =
      if (slide_left b).1 = b then (-1 : Int)
      else ((∑ r : Fin 4, (slide_row_spec (rowList b r)).2 : Nat) : Int) := by
  have h := congrArg Prod.snd (slide_left_eq b)
  have h1 : (slide_left b).1 =
      (fun r c => ((slide_row_spec (rowList b r)).1).getD c 0 : Board) :=
    congrArg Prod.fst (slide_left_eq b)
  rw [h, h1]

lemma slide_left_iff (b : Board) :
    (slide_left b).2 = -1 ↔ (slide_left b).1 = b := by
  rw [slide_left_snd b]
  by_cases h : (slide_left b).1 = b
  · rw [if_pos h]
    exact iff_of_true rfl h
  · rw [if_neg h]
    refine iff_of_false ?_ h
    omega

lemma slide_left_val (b : Board) :
    (slide_left b).2 = -1 ∨
      (slide_left b).2 =
        ((∑ r : Fin 4, (slide_row_spec (rowList b r)).2 : Nat) : Int) := by
  rw [slide_left_snd b]
  by_cases h : (slide_left b).1 = b
  · left
    rw [if_pos h]
  · right
    rw [if_neg h]

lemma slide_right_iff (b : Board) :
    (slide_right b).2 = -1 ↔ (slide_right b).1 = b := by
  show (slide_left (reflect_horizontal b)).2 = -1 ↔
    reflect_horizontal (slide_left (reflect_horizontal b)).1 = b
  rw [slide_left_iff, reflect_horizontal_eq_iff]

lemma slide_right_val (b : Board) :
    (slide_right b).2 = -1 ∨
      (slide_right b).2 =
        ((∑ r : Fin 4,
          (slide_row_spec (rowList (reflect_horizontal b) r)).2 : Nat) : Int) :=
  slide_left_val (reflect_horizontal b)

lemma slide_up_iff (b : Board) :
    (slide_up b).2 = -1 ↔ (slide_up b).1 = b := by
  show (slide_right (rotate_clockwise b)).2 = -1 ↔
    rotate_counterclockwise (slide_right (rotate_clockwise b)).1 = b
  rw [slide_right_iff, rotate_counterclockwise_eq_iff]

lemma slide_up_val (b : Board) :
    (slide_up b).2 = -1 ∨
      (slide_up b).2 =
        ((∑ r : Fin 4,
          (slide_row_spec
            (rowList (reflect_horizontal (rotate_clockwise b)) r)).2 : Nat) : Int) :=
  slide_right_val (rotate_clockwise b)

lemma slide_down_iff (b : Board) :
    (slide_down b).2 = -1 ↔ (slide_down b).1 = b := by
  show (slide_left (rotate_clockwise b)).2 = -1 ↔
    rotate_counterclockwise (slide_left (rotate_clockwise b)).1 = b
  rw [slide_left_iff, rotate_counterclockwise_eq_iff]

lemma slide_down_val (b : Board) :
    (slide_down b).2 = -1 ∨
      (slide_down b).2 =
        ((∑ r : Fin 4,
          (slide_row_spec (rowList (rotate_clockwise b) r)).2 : Nat) : Int) :=
  slide_left_val (rotate_clockwise b)

lemma slide_eq_up (b : Board) (opcode : Nat) (h : opcode % 4 = 0) :
    slide b opcode = slide_up b := by
  unfold slide
  rw [h]

lemma slide_eq_right (b : Board) (opcode : Nat) (h : opcode % 4 = 1) :
    slide b opcode = slide_right b := by
  unfold slide
  rw [h]

lemma slide_eq_down (b : Board) (opcode : Nat) (h : opcode % 4 = 2) :
    slide b opcode = slide_down b := by
  unfold slide
  rw [h]

lemma slide_eq_left (b : Board) (opcode : Nat) (h : opcode % 4 = 3) :
    slide b opcode = slide_left b := by
  unfold slide
  rw [h]

lemma totalMergeScore_eq (b : Board) (opcode : Nat) :
    totalMergeScore b opcode =
      ((∑ r : Fin 4, (slide_row_spec (rowList (orient b opcode) r)).2 : Nat) : Int) :=
  rfl

/-- C4: a slide returns −1 exactly when the board it leaves behind equals
its input, and any other return value is the total merge score of the
oriented rows. -/
theorem claim_C4 (b : Board) (opcode : Nat) :
    ((slide b opcode).2 = -1 ↔ (slide b opcode).1 = b) ∧
    ((slide b opcode).2 = -1 ∨ (slide b opcode).2 = totalMergeScore b opcode) := by
  have h4 : opcode % 4 = 0 ∨ opcode % 4 = 1 ∨ opcode % 4 = 2 ∨ opcode % 4 = 3 := by
    omega
  rcases h4 with h | h | h | h
  · rw [slide_eq_up b opcode h, totalMergeScore_eq]
    unfold orient
    rw [h]
    exact ⟨slide_up_iff b, slide_up_val b⟩
  · rw [slide_eq_right b opcode h, totalMergeScore_eq]
    unfold orient
    rw [h]
    exact ⟨slide_right_iff b, slide_right_val b⟩
  · rw [slide_eq_down b opcode h, totalMergeScore_eq]
    unfold orient
    rw [h]
    exact ⟨slide_down_iff b, slide_down_val b⟩
  · rw [slide_eq_left b opcode h, totalMergeScore_eq]
    unfold orient
    rw [h]
    exact ⟨slide_left_iff b, slide_left_val b⟩

lemma rev4_zero : rev4 0 = 3 := rfl

lemma rev4_one : rev4 1 = 2 := rfl

lemma rev4_two : rev4 2 = 1 := rfl

lemma rev4_three : rev4 3 = 0 := rfl

lemma rowCount_cons (a : Nat) (l : List Nat) :
    rowCount (a :: l) = cnt a + rowCount l := by
  simp [rowCount]

lemma rowCount_append (l l' : List Nat) :
    rowCount (l ++ l') = rowCount l + rowCount l' := by
  simp [rowCount]

lemma rowCount_replicate_zero (n : Nat) :
    rowCount (List.replicate n 0) = 0 := by
  simp [rowCount, cnt]

lemma cnt_le_one (a : Nat) : cnt a ≤ 1 := by
  unfold cnt
  split <;> omega

lemma rowCount_le_length (l : List Nat) : rowCount l ≤ l.length := by
  induction l with
  | nil => simp [rowCount]
  | cons a l ih =>
    have := cnt_le_one a
    rw [rowCount_cons, List.length_cons]
    omega

lemma length_filter_eq_rowCount (l : List Nat) :
    (l.filter (fun t => t ≠ 0)).length = rowCount l := by
  induction l with
  | nil => simp [rowCount]
  | cons a l ih =>
    simp only [ne_eq, decide_not] at ih ⊢
    by_cases h : a = 0
    · simp [List.filter_cons, h, rowCount_cons, cnt, ih]
    · simp [List.filter_cons, h, rowCount_cons, cnt, ih]
      omega

lemma rowCount_slide_row_spec_le (l : List Nat) :
    rowCount ((slide_row_spec l).1) ≤ rowCount l := by
  unfold slide_row_spec
  rw [rowCount_append, rowCount_replicate_zero]
  calc rowCount (mergeRow (l.filter (fun t => t ≠ 0))).1 + 0
      ≤ (mergeRow (l.filter (fun t => t ≠ 0))).1.length := by
        have := rowCount_le_length (mergeRow (l.filter (fun t => t ≠ 0))).1
        omega
    _ ≤ (l.filter (fun t => t ≠ 0)).length := mergeRow_length_le _
    _ = rowCount l := length_filter_eq_rowCount l

lemma cellCount_slide_left_le (b : Board) :
    cellCount (slide_left b).1 ≤ cellCount b := by
  unfold cellCount
  refine Finset.sum_le_sum fun r _ => ?_
  rw [rowList_slide_left]
  exact rowCount_slide_row_spec_le _

lemma cellCount_reflect_horizontal (b : Board) :
    cellCount (reflect_horizontal b) = cellCount b := by
  simp only [cellCount, Fin.sum_univ_four, rowList, reflect_horizontal,
    rowCount, List.map_cons, List.map_nil, List.sum_cons, List.sum_nil,
    rev4_zero, rev4_one, rev4_two, rev4_three]
  omega

lemma cellCount_reflect_vertical (b : Board) :
    cellCount (reflect_vertical b) = cellCount b := by
  simp only [cellCount, Fin.sum_univ_four, rowList, reflect_vertical,
    rowCount, List.map_cons, List.map_nil, List.sum_cons, List.sum_nil,
    rev4_zero, rev4_one, rev4_two, rev4_three]
  omega

lemma cellCount_transpose (b : Board) :
    cellCount (transpose b) = cellCount b := by
  simp only [cellCount, Fin.sum_univ_four, rowList, transpose,
    rowCount, List.map_cons, List.map_nil, List.sum_cons, List.sum_nil]
  omega

lemma cellCount_rotate_clockwise (b : Board) :
    cellCount (rotate_clockwise b) = cellCount b := by
  unfold rotate_clockwise
  rw [cellCount_reflect_horizontal, cellCount_transpose]

lemma cellCount_rotate_counterclockwise (b : Board) :
    cellCount (rotate_counterclockwise b) = cellCount b := by
  unfold rotate_counterclockwise
  rw [cellCount_reflect_vertical, cellCount_transpose]

lemma cellCount_slide_right_le (b : Board) :
    cellCount (slide_right b).1 ≤ cellCount b := by
  show cellCount (reflect_horizontal (slide_left (reflect_horizontal b)).1) ≤ _
  rw [cellCount_reflect_horizontal]
  calc cellCount (slide_left (reflect_horizontal b)).1
      ≤ cellCount (reflect_horizontal b) := cellCount_slide_left_le _
    _ = cellCount b := cellCount_reflect_horizontal b

lemma cellCount_slide_up_le (b : Board) :
    cellCount (slide_up b).1 ≤ cellCount b := by
  show cellCount
    (rotate_counterclockwise (slide_right (rotate_clockwise b)).1) ≤ _
  rw [cellCount_rotate_counterclockwise]
  calc cellCount (slide_right (rotate_clockwise b)).1
      ≤ cellCount (rotate_clockwise b) := cellCount_slide_right_le _
    _ = cellCount b := cellCount_rotate_clockwise b

lemma cellCount_slide_down_le (b : Board) :
    cellCount (slide_down b).1 ≤ cellCount b := by
  show cellCount
    (rotate_counterclockwise (slide_left (rotate_clockwise b)).1) ≤ _
  rw [cellCount_rotate_counterclockwise]
  calc cellCount (slide_left (rotate_clockwise b)).1
      ≤ cellCount (rotate_clockwise b) := cellCount_slide_left_le _
    _ = cellCount b := cellCount_rotate_clockwise b

/-- A single overwritten cell changes at most one position. -/
lemma card_changed_le_one (b : Board) (i j : Fin 4) (t : Nat) :
    (Finset.univ.filter (fun p : Fin 4 × Fin 4 =>
      (fun r c => if r = i ∧ c = j then t else b r c : Board) p.1 p.2 ≠
        b p.1 p.2)).card ≤ 1 := by
  refine Finset.card_le_one.mpr fun p hp q hq => ?_
  simp only [Finset.mem_filter, Finset.mem_univ, true_and] at hp hq
  have hp1 : p.1 = i ∧ p.2 = j := by
    by_contra h
    rw [if_neg h] at hp
    exact hp rfl
  have hq1 : q.1 = i ∧ q.2 = j := by
    by_contra h
    rw [if_neg h] at hq
    exact hq rfl
  exact Prod.ext_iff.mpr
    ⟨hp1.1.trans hq1.1.symm, hp1.2.trans hq1.2.symm⟩

/-- C9: no slide increases the number of nonzero cells, and a placement
changes at most one cell. -/
theorem claim_C9 (b : Board) :
    (∀ opcode : Nat, cellCount (slide b opcode).1 ≤ cellCount b) ∧
    (∀ pos tile : Nat,
      (Finset.univ.filter
        (fun p : Fin 4 × Fin 4 =>
          (place b pos tile).1 p.1 p.2 ≠ b p.1 p.2)).card ≤ 1) := by
  constructor
  · intro opcode
    have h4 : opcode % 4 = 0 ∨ opcode % 4 = 1 ∨ opcode % 4 = 2 ∨
        opcode % 4 = 3 := by omega
    rcases h4 with h | h | h | h
    · rw [slide_eq_up b opcode h]
      exact cellCount_slide_up_le b
    · rw [slide_eq_right b opcode h]
      exact cellCount_slide_right_le b
    · rw [slide_eq_down b opcode h]
      exact cellCount_slide_down_le b
    · rw [slide_eq_left b opcode h]
      exact cellCount_slide_left_le b
  · intro pos tile
    unfold place
    split_ifs with h1 h2 h3
    · simp
    · simp
    · simp
    · exact card_changed_le_one b _ _ tile

/-- C7: the danger level always lands in {0, 0.4, 0.7, 1}, depends on the
board only through its rank-13 and rank-12 counts, and is 0 both for one
rank-13 tile with no rank-12 tile and for two rank-13 tiles with no rank-12
tile. -/
theorem claim_C7 (b : Board) :
    (calculate_danger_level b = 0 ∨ calculate_danger_level b = 2/5 ∨
      calculate_danger_level b = 7/10 ∨ calculate_danger_level b = 1) ∧
    (∀ b' : Board, count_tile_value b 13 = count_tile_value b' 13 →
      count_tile_value b 12 = count_tile_value b' 12 →
      calculate_danger_level b = calculate_danger_level b') ∧
    (count_tile_value b 13 = 1 → count_tile_value b 12 = 0 →
      calculate_danger_level b = 0) ∧
    (count_tile_value b 13 = 2 → count_tile_value b 12 = 0 →
      calculate_danger_level b = 0) := by
  refine ⟨?_, ?_, ?_, ?_⟩
  · simp only [calculate_danger_level]
    split_ifs <;> simp
  · intro b' h13 h12
    simp only [calculate_danger_level]
    rw [h13, h12]
  · intro h13 h12
    simp only [calculate_danger_level]
    rw [h13, h12]
    norm_num
  · intro h13 h12
    simp only [calculate_danger_level]
    rw [h13, h12]
    norm_num

/-- Witness for C7 on the one-rank-13 and the two-rank-13 boards. -/
theorem claim_C7_witness :
    calculate_danger_level exOne13 = 0 ∧ calculate_danger_level exTwo13 = 0 :=
  ⟨(claim_C7 exOne13).2.2.1 (by decide) (by decide),
   (claim_C7 exTwo13).2.2.2 (by decide) (by decide)⟩

/-- C6: with a nonempty trajectory, the final reward is −50000 on the
literal tag "win"; on the literal tag "lose" it is 10000 with exactly one
rank-13 tile in the final state, 5000 with none and a maximum rank of at
least 12, and 1000 otherwise; any other tag gives 0. -/
theorem claim_C6 (flag : String) (episode : List GameStep) (last : GameStep)
    (h : episode.getLast? = some last) :
    (flag = "win" → calculate_final_reward flag episode = -50000) ∧
    (flag = "lose" → calculate_final_reward flag episode =
      (if count_tile_value last.next_state 13 = 1 then 10000
       else if count_tile_value last.next_state 13 = 0 ∧
           12 ≤ max_tile_value last.next_state then 5000
       else 1000)) ∧
    (flag ≠ "win" → flag ≠ "lose" → calculate_final_reward flag episode = 0) := by
  refine ⟨fun hw => ?_, fun hl => ?_, fun h1 h2 => ?_⟩
  · simp [calculate_final_reward, hw]
  · subst hl
    simp only [calculate_final_reward, h, if_true]
    rw [if_neg (by decide : ¬("lose" : String) = "win")]
  · simp [calculate_final_reward, h1, h2]

/-- Witness for C6 across the four reward tiers and a foreign tag. -/
theorem claim_C6_witness :
    calculate_final_reward "win" exEpisode13 = -50000 ∧
    calculate_final_reward "lose" exEpisode13 = 10000 ∧
    calculate_final_reward "lose" exEpisode12 = 5000 ∧
    calculate_final_reward "lose" exEpisode0 = 1000 ∧
    calculate_final_reward "draw" exEpisode13 = 0 := by
  refine ⟨(claim_C6 "win" exEpisode13 ⟨bZero, 0, exOne13, 0⟩ rfl).1 rfl,
    ?_, ?_, ?_,
    (claim_C6 "draw" exEpisode13 ⟨bZero, 0, exOne13, 0⟩ rfl).2.2
      (by decide) (by decide)⟩
  · rw [(claim_C6 "lose" exEpisode13 ⟨bZero, 0, exOne13, 0⟩ rfl).2.1 rfl]
    rw [if_pos (by decide)]
  · rw [(claim_C6 "lose" exEpisode12 ⟨bZero, 0, exOne12, 0⟩ rfl).2.1 rfl]
    rw [if_neg (by decide), if_pos (by decide)]
  · rw [(claim_C6 "lose" exEpisode0 ⟨bZero, 0, bZero, 0⟩ rfl).2.1 rfl]
    rw [if_neg (by decide), if_neg (by decide)]

lemma finalUpdateAux_length (lam : ℚ) :
    ∀ (l : List GameStep) (e : ℚ) (k : Nat),
      (finalUpdateAux lam l e k).length = l.length := by
  intro l
  induction l with
  | nil => intro e k; rfl
  | cons s l ih =>
    intro e k
    simp only [finalUpdateAux, List.length_cons, ih]

lemma carriedError_cons (e lam : ℚ) (s : GameStep) (l : List GameStep) :
    ∀ d, carriedError ((s.reward : ℚ) + lam * e) lam l d =
      carriedError e lam (s :: l) (d + 1) := by
  intro d
  induction d with
  | zero => simp [carriedError]
  | succ d ih =>
    show ((l.getD d default).reward : ℚ) + lam * _ = _
    rw [ih]
    rfl

lemma finalUpdateAux_getD (lam : ℚ) :
    ∀ (l : List GameStep) (e : ℚ) (k d : Nat), d < l.length →
      (finalUpdateAux lam l e k).getD d default =
        ((l.getD d default).state, carriedError e lam l d * lam ^ (k + d)) := by
  intro l
  induction l with
  | nil =>
    intro e k d hd
    simp at hd
  | cons s l ih =>
    intro e k d hd
    cases d with
    | zero =>
      simp [finalUpdateAux, carriedError]
    | succ d =>
      have hd' : d < l.length := by simpa using hd
      simp only [finalUpdateAux, List.getD_cons_succ]
      rw [ih ((s.reward : ℚ) + lam * e) (k + 1) d hd']
      rw [← carriedError_cons]
      rw [show k + 1 + d = k + (d + 1) from by omega]

lemma carriedError_of_zero (e lam : ℚ) (l : List GameStep)
    (hz : ∀ s ∈ l, s.reward = 0) :
    ∀ d, d ≤ l.length → carriedError e lam l d = lam ^ d * e := by
  intro d
  induction d with
  | zero =>
    intro _
    simp [carriedError]
  | succ d ih =>
    intro hd
    have hd' : d < l.length := by omega
    have hmem : l.getD d default ∈ l := by
      rw [List.getD_eq_getElem l default hd']
      exact List.getElem_mem hd'
    show ((l.getD d default).reward : ℚ) + lam * _ = _
    rw [hz _ hmem, ih (by omega)]
    push_cast
    ring

/-- C2 (amended): the backward episode update applies, at distance `d` from
the end, the error `carried(d) * λ^d`, with `carried` seeded by
`final_reward − last.value_estimate` and advanced by
`next_error = step.reward + λ * next_error`; in particular with all step
rewards zero the applied error is `(final_reward − last.value_estimate) *
λ^(2d)`, not `λ^d` as the spec's closed formula states. -/
theorem claim_C2_amended (lam : ℚ) (flag : String) (episode : List GameStep)
    (last : GameStep) (h : episode.getLast? = some last) :
    (perform_final_td_update lam flag episode).length = episode.length ∧
    (∀ d, d < episode.length →
      (perform_final_td_update lam flag episode).getD d default =
        ((episode.reverse.getD d default).state,
          carriedError (calculate_final_reward flag episode - last.evaluation)
            lam episode.reverse d * lam ^ d)) ∧
    ((∀ s ∈ episode, s.reward = 0) → ∀ d, d < episode.length →
      ((perform_final_td_update lam flag episode).getD d default).2 =
        (calculate_final_reward flag episode - last.evaluation) *
          lam ^ (2 * d)) := by
  have hp : perform_final_td_update lam flag episode =
      finalUpdateAux lam episode.reverse
        (calculate_final_reward flag episode - last.evaluation) 0 := by
    simp only [perform_final_td_update, h]
  refine ⟨?_, ?_, ?_⟩
  · rw [hp, finalUpdateAux_length]
    exact List.length_reverse episode
  · intro d hd
    rw [hp, finalUpdateAux_getD lam episode.reverse _ 0 d
      (by simpa using hd)]
    rw [Nat.zero_add]
  · intro hz d hd
    rw [hp, finalUpdateAux_getD lam episode.reverse _ 0 d
      (by simpa using hd)]
    have hz' : ∀ s ∈ episode.reverse, s.reward = 0 := fun s hs =>
      hz s (List.mem_reverse.mp hs)
    rw [Nat.zero_add]
    show carriedError _ lam episode.reverse d * lam ^ d = _
    rw [carriedError_of_zero _ _ _ hz' d
      (by simpa using le_of_lt hd)]
    rw [two_mul, pow_add]
    ring

/-- Witness for C2 (amended): on a two-step zero-reward "win" episode with
λ = 2, the earliest step's applied error is the terminal error times
λ^2 = 4. -/
theorem claim_C2_witness :
    ((perform_final_td_update 2 "win" exEpisode2).getD 1 default).2 =
      (calculate_final_reward "win" exEpisode2 - 0) * 2 ^ (2 * 1) :=
  (claim_C2_amended 2 "win" exEpisode2 ⟨bZero, 0, bZero, 0⟩ rfl).2.2
    (by decide) 1 (by decide)

/-- C2 (counterexample): on the same episode the applied error at distance 1
from the end is −200000, not the −100000 the spec's closed formula
`(final_reward − last.value_estimate) * λ^(distance_from_end)` gives. -/
theorem claim_C2_counterexample :
    ((perform_final_td_update 2 "win" exEpisode2).map Prod.snd =
      [-50000, -200000]) ∧
    ((perform_final_td_update 2 "win" exEpisode2).getD 1 default).2 ≠
      (calculate_final_reward "win" exEpisode2 - 0) * 2 ^ 1 := by
  have hw : calculate_final_reward "win" exEpisode2 = -50000 := by
    unfold calculate_final_reward
    rw [if_pos rfl]
  constructor
  · have h1 : (perform_final_td_update 2 "win" exEpisode2).map Prod.snd =
        [(calculate_final_reward "win" exEpisode2 - 0) * 2 ^ 0,
         (((0 : Int) : ℚ) +
           2 * (calculate_final_reward "win" exEpisode2 - 0)) * 2 ^ (0 + 1)] :=
      rfl
    rw [h1, hw]
    norm_num
  · have h2 : ((perform_final_td_update 2 "win" exEpisode2).getD 1 default).2 =
        (((0 : Int) : ℚ) +
          2 * (calculate_final_reward "win" exEpisode2 - 0)) * 2 ^ (0 + 1) :=
      rfl
    rw [h2, hw]
    norm_num

/-- The mutation chain of `evaluate_isomorphic_patterns`, element by
element, in terms of the named symmetry operations of `board.h`: the
counterclockwise rotation never appears and the vertical mirror appears
twice. -/
lemma codeVariants_eq (b : Board) :
    codeVariants b = [b, reflect_horizontal b, reflect_vertical b,
      transpose b, rotate_clockwise b, anti_transpose b, reverse b,
      reflect_vertical b] := by
  have h7 : mirror_horizontal (transpose_board (mirror_vertical
      (mirror_horizontal (transpose_board b)))) = reflect_vertical b := by
    funext r c
    show b (rev4 r) (rev4 (rev4 c)) = b (rev4 r) c
    rw [rev4_rev4]
  simp only [codeVariants]
  rw [h7]
  rfl

/-- The pattern evaluation sums the lookup over exactly the eight boards of
`codeVariants`. -/
lemma evaluate_board_variants (net : List Wtable) (b : Board) :
    evaluate_board net b =
      ((patterns.zip net).map (fun pw =>
        if pw.2.size = 0 then 0
        else ((codeVariants b).map
          (fun v => evaluate_pattern v pw.1 pw.2)).sum)).sum := by
  unfold evaluate_board
  refine congrArg List.sum (List.map_congr_left fun pw _ => ?_)
  by_cases h : pw.2.size = 0
  · rw [if_pos h, if_pos h]
  · rw [if_neg h, if_neg h]
    unfold evaluate_isomorphic_patterns
    conv_rhs => rw [show codeVariants b = b :: ((codeVariants b).drop 1) from
      rfl]
    rw [List.map_cons, List.sum_cons]

/-- C1 (amended): `evaluate_board` sums, per pattern/table pair, the
weight-table lookup of the pattern's feature index over exactly eight
boards: the identity, the horizontal mirror, the vertical mirror, the
transpose, the clockwise rotation, the anti-diagonal reflection, the
half-turn, and the vertical mirror a second time — seven distinct dihedral
elements with the vertical mirror duplicated and the counterclockwise
rotation absent. -/
theorem claim_C1_amended (b : Board) (net : List Wtable) :
    codeVariants b = [b, reflect_horizontal b, reflect_vertical b,
      transpose b, rotate_clockwise b, anti_transpose b, reverse b,
      reflect_vertical b] ∧
    evaluate_board net b =
      ((patterns.zip net).map (fun pw =>
        if pw.2.size = 0 then 0
        else ((codeVariants b).map
          (fun v => evaluate_pattern v pw.1 pw.2)).sum)).sum :=
  ⟨codeVariants_eq b, evaluate_board_variants net b⟩

/-- C1 (counterexample): on a board with 16 distinct cells the eight
evaluated boards are not the dihedral group of the square — the
counterclockwise rotation is never evaluated and the vertical mirror is
evaluated twice. -/
theorem claim_C1_counterexample :
    ((((codeVariants exDistinct).map boardList) :
        Multiset (List (List Nat))) ≠
      (((dihedralVariants exDistinct).map boardList) :
        Multiset (List (List Nat)))) ∧
    boardList (rotate_counterclockwise exDistinct) ∉
      (codeVariants exDistinct).map boardList ∧
    ((codeVariants exDistinct).map boardList).count
      (boardList (reflect_vertical exDistinct)) = 2 :=
  ⟨by decide, by decide, by decide⟩

lemma getT_modifyT (l : List Wtable) :
    ∀ (i : Nat) (f : Wtable → Wtable), i < l.length →
      getT (modifyT l i f) i = f (getT l i) := by
  induction l with
  | nil =>
    intro i f h
    simp at h
  | cons w l ih =>
    intro i f h
    cases i with
    | zero => rfl
    | succ i =>
      show getT (modifyT l i f) i = f (getT l i)
      exact ih i f (by simpa using h)

lemma size_pos_lt (l : List Wtable) (i : Nat) (h : 0 < (getT l i).size) :
    i < l.length := by
  by_contra hc
  push_neg at hc
  rw [getT, List.getD_eq_default _ _ hc] at h
  simp at h

/-- C5: a pattern update replaces the feature index's eligibility trace by
1.0 and increments the table entry by `alpha * error * trace[index]` (the
trace just written, i.e. 1); the full state update performs, per
pattern/table pair, exactly the original update plus the horizontal-mirror
and transpose updates at error scale 0.125 each, and no other variant. -/
theorem claim_C5 (alpha td_error : ℚ) (st : LState) (state : Board)
    (pattern : List Nat) (i : Nat) :
    (featIndex (getT st.net i).size state pattern < (getT st.net i).size →
      featIndex (getT st.net i).size state pattern <
          (getT st.traces i).size →
      (getT (update_pattern_weights alpha st state pattern i td_error).traces
          i).val (featIndex (getT st.net i).size state pattern) = 1 ∧
      (getT (update_pattern_weights alpha st state pattern i td_error).net
          i).val (featIndex (getT st.net i).size state pattern) =
        (getT st.net i).val (featIndex (getT st.net i).size state pattern) +
          alpha * td_error * 1) ∧
    (update_isomorphic_pattern_weights alpha
        (update_pattern_weights alpha st state pattern i td_error)
        state pattern i td_error =
      specVariantUpdates alpha st state pattern i td_error) ∧
    (update_weights_with_td_error alpha st state td_error =
      if st.net.isEmpty ∨ st.traces.isEmpty then st
      else (List.range (min patterns.length st.net.length)).foldl
        (fun acc j =>
          if (getT acc.net j).size = 0 then acc
          else specVariantUpdates alpha acc state (patterns.getD j []) j
            td_error) st) := by
  refine ⟨fun hn ht => ?_, rfl, rfl⟩
  have hti : i < st.traces.length :=
    size_pos_lt st.traces i (Nat.lt_of_le_of_lt (Nat.zero_le _) ht)
  have hni : i < st.net.length :=
    size_pos_lt st.net i (Nat.lt_of_le_of_lt (Nat.zero_le _) hn)
  simp only [update_pattern_weights]
  rw [if_pos ⟨hn, ht⟩]
  constructor
  · show (getT (modifyT st.traces i _) i).val _ = 1
    rw [getT_modifyT st.traces i _ hti]
    simp [updVal]
  · show (getT (modifyT st.net i _) i).val _ = _
    rw [getT_modifyT st.net i _ hni]
    simp only [updVal, if_pos rfl]
    rw [getT_modifyT st.traces i _ hti]
    simp [updVal]

/-- Witness for C5 on the zero-filled four-table state, the empty board and
pattern `{0,1,4,5}`. -/
theorem claim_C5_witness :
    (getT (update_pattern_weights 1 exLState bZero [0, 1, 4, 5] 0 1).traces
        0).val (featIndex (getT exLState.net 0).size bZero [0, 1, 4, 5]) = 1 ∧
    (getT (update_pattern_weights 1 exLState bZero [0, 1, 4, 5] 0 1).net
        0).val (featIndex (getT exLState.net 0).size bZero [0, 1, 4, 5]) =
      (getT exLState.net 0).val
        (featIndex (getT exLState.net 0).size bZero [0, 1, 4, 5]) +
        1 * 1 * 1 :=
  (claim_C5 1 1 exLState bZero [0, 1, 4, 5] 0).1 (by decide) (by decide)

end Spec2048
